import Mathlib

/-!
Verification of the recursive-descent parser and tree-walking interpreter of
the ltl-compiler repository (src/lexer/parser.rs, src/lexer/interpreter.rs,
src/lexer/stmt.rs), as described by its design specification.

Shallow embedding notes:
* Rust `f64` number payloads are idealized as `ℚ`; no claim settled here
  depends on IEEE-754 rounding (the one that does is reported separately).
* The files `token.rs`, `expr.rs` and `environment.rs` are not part of the
  provided sources; their data declarations and the `Environment` operations
  are modelled from the specification (sections 3 and 4.3) and from how the
  provided sources use them.  Such definitions carry a doc comment starting
  with `Modelled from the spec:`.
* Rust panics (out-of-bounds `unwrap`) in the parser are modelled by an
  explicit `crash` outcome; recursion of the recursive-descent parser is
  driven by an explicit fuel argument whose exhaustion is the separate
  outcome `out`, so that crash-freedom is provable for every fuel.
-/

/-- Modelled from the spec: the token classification enum of the external
tokenizer (`token.rs` is not among the provided sources); variants are those
referenced by `parser.rs` and `interpreter.rs`. -/
inductive TokenType
  | LeftParen | RightParen | LeftBrace | RightBrace
  | Comma | Dot | Minus | Plus | Semicolon | Slash | Star
  | Bang | BangEqual | Equal | EqualEqual
  | Greater | GreaterEqual | Less | LessEqual
  | Identifier | String | Number
  | And | Or | CLass | Fun | Var | For | If | While | Print | Return
  | True | False | Nil | Eof
deriving DecidableEq, Repr

/-- Modelled from the spec: a token's optional literal payload (float or
string); the source's name `LiterialValue` (sic) is kept, with `f64`
idealized as `ℚ`. -/
inductive LiterialValue
  | FloatValue (v : ℚ)
  | StringValue (v : String)
deriving DecidableEq, Repr

/-- Modelled from the spec: a classified lexical unit with type, lexeme,
optional literal payload and source line number. -/
structure Token where
  token_type : TokenType
  lexeme : String
  literial : Option LiterialValue
  line_number : Nat
deriving DecidableEq, Repr

/-- Modelled from the spec: the runtime/literal value sum type used by
`expr.rs` (not among the provided sources): Number, String, Boolean
(as two constructors, matching the source's `True`/`False`), Nil. -/
inductive ExprLiteral
  | NumberLiteral (v : ℚ)
  | StringLiteral (s : String)
  | True
  | False
  | Nil
deriving DecidableEq, Repr

/-- Modelled from the spec: the expression AST of `expr.rs` (not among the
provided sources); variants are exactly those constructed and matched by
`parser.rs` and `interpreter.rs`. -/
inductive Expr
  | Literal (value : ExprLiteral)
  | Grouping (expression : Expr)
  | Unary (operator : Token) (right : Expr)
  | Binary (left : Expr) (operator : Token) (right : Expr)
  | Logical (left : Expr) (operator : Token) (right : Expr)
  | Variable (name : Token)
  | Assign (name : Token) (value : Expr)
deriving DecidableEq, Repr

/-- The statement AST of `stmt.rs`.  The variant `Let` is named as in
`stmt.rs` (`parser.rs` writes the same variant as `Stmt::Var`). -/
inductive Stmt
  | Expression (e : Expr)
  | Print (e : Expr)
  | Let (name : Token) (initializer : Expr)
  | Block (statements : List Stmt)
  | If (condition : Expr) (thenBranch : Stmt) (elseBranch : Option Stmt)
deriving Repr

/-- Modelled from the spec: the scope chain of `environment.rs` (not among
the provided sources): a mapping from names to values plus an optional
enclosing (parent) scope. -/
inductive Environment
  | mk (values : List (String × ExprLiteral)) (enclosing : Option Environment)

/-- The binding list of a scope. -/
def Environment.values : Environment → List (String × ExprLiteral)
  | .mk v _ => v

/-- The optional parent scope. -/
def Environment.enclosing : Environment → Option Environment
  | .mk _ e => e

/-- First binding of `n` in an association list. -/
def lookupBinding : List (String × ExprLiteral) → String → Option ExprLiteral
  | [], _ => none
  | (k, w) :: rest, n => if k = n then some w else lookupBinding rest n

/-- Replace the binding of `n` if present, otherwise append it. -/
def upsertBinding : List (String × ExprLiteral) → String → ExprLiteral → List (String × ExprLiteral)
  | [], n, v => [(n, v)]
  | (k, w) :: rest, n, v =>
    if k = n then (n, v) :: rest else (k, w) :: upsertBinding rest n v

/-- Modelled from the spec: `define(name, value)` inserts/overwrites a
binding in this scope only, never searching outward. -/
def Environment.define : Environment → String → ExprLiteral → Environment
  | .mk values enclosing, n, v => .mk (upsertBinding values n v) enclosing

/-- Modelled from the spec: the `NameError` diagnostic for an unresolved
name, carrying the offending lexeme and line. -/
def nameErrorMsg (name : Token) : String :=
  "NameError: undefined variable " ++ name.lexeme ++ " at line "
    ++ toString name.line_number ++ "."

/-- Modelled from the spec: `get(name)` checks this scope, then recurses to
the parent; a `NameError` only at the chain root. -/
def Environment.get : Environment → Token → Except String ExprLiteral
  | .mk values enclosing, name =>
    match lookupBinding values name.lexeme with
    | some v => .ok v
    | none =>
      match enclosing with
      | some parent => parent.get name
      | none => .error (nameErrorMsg name)

/-- Modelled from the spec: `assign(name, value)` mutates the nearest
enclosing scope that already defines the name; `NameError` if absent
throughout the chain.  Mutation is modelled by returning the updated
environment. -/
def Environment.assign : Environment → Token → ExprLiteral → Except String Environment
  | .mk values enclosing, name, v =>
    match lookupBinding values name.lexeme with
    | some _ => .ok (.mk (upsertBinding values name.lexeme v) enclosing)
    | none =>
      match enclosing with
      | some parent =>
        match parent.assign name v with
        | .ok parent₁ => .ok (.mk values (some parent₁))
        | .error e => .error e
      | none => .error (nameErrorMsg name)

/-- Modelled from the spec: structural value equality used by `==`/`!=`
(`is_equal` lives in the absent `expr.rs`): Number/String/Boolean compare by
value, Nil equals only Nil, cross-type comparison is false. -/
def ExprLiteral.is_equal : ExprLiteral → ExprLiteral → Bool
  | .NumberLiteral a, .NumberLiteral b => a == b
  | .StringLiteral a, .StringLiteral b => a == b
  | .True, .True => true
  | .False, .False => true
  | .Nil, .Nil => true
  | _, _ => false

/-- `Interpreter::is_truthy` (interpreter.rs): everything is truthy except
`False` and `Nil`; note the source returns an `ExprLiteral`, not a `Bool`. -/
def is_truthy : ExprLiteral → ExprLiteral
  | .False | .Nil => .False
  | _ => .True

/-- The runtime type-mismatch message of interpreter.rs's binary operators. -/
def wrongOperandMsg (op : Token) : String :=
  "Error occur when interpreter at line " ++ toString op.line_number ++ " at "
    ++ op.lexeme ++ " for some wrong operand."

/-- The runtime error message of interpreter.rs's unary minus. -/
def unaryNumberMsg (op : Token) : String :=
  "Error occur when interpreter number at line " ++ toString op.line_number
    ++ " at " ++ op.lexeme ++ "."

/-- The runtime error message for an unrecognized unary operator token. -/
def unaryNoMatchMsg (op : Token) : String :=
  "Error occur when interpreter at line " ++ toString op.line_number ++ " at "
    ++ op.lexeme ++ " for no matching unary operator."

/-- The runtime error message for an unrecognized binary operator token. -/
def binaryNoMatchMsg (op : Token) : String :=
  "Error occur when interpreter at line " ++ toString op.line_number ++ " at "
    ++ op.lexeme ++ " for no matchine Binary operator."

/-- `Interpreter::check_number_operands` (interpreter.rs): both operands
numbers?  Mirrors the source's `(bool, f64, f64)` return. -/
def check_number_operands : ExprLiteral → ExprLiteral → (Bool × ℚ × ℚ)
  | .NumberLiteral a, .NumberLiteral b => (true, a, b)
  | _, _ => (false, 0, 0)

/-- The per-operator dispatch of `Interpreter::match_expr`'s Binary arm
(interpreter.rs), on already-evaluated operand values. -/
def binaryOp (op : Token) (lv rv : ExprLiteral) : Except String ExprLiteral :=
  match op.token_type with
  | .Minus =>
    match check_number_operands lv rv with
    | (true, a, b) => .ok (.NumberLiteral (a - b))
    | _ => .error (wrongOperandMsg op)
  | .Slash =>
    match check_number_operands lv rv with
    | (true, a, b) => .ok (.NumberLiteral (a / b))
    | _ => .error (wrongOperandMsg op)
  | .Star =>
    match check_number_operands lv rv with
    | (true, a, b) => .ok (.NumberLiteral (a * b))
    | _ => .error (wrongOperandMsg op)
  | .Plus =>
    match lv, rv with
    | .NumberLiteral a, .NumberLiteral b => .ok (.NumberLiteral (a + b))
    | .StringLiteral a, .StringLiteral b => .ok (.StringLiteral (a ++ b))
    | _, _ => .error (wrongOperandMsg op)
  | .Greater =>
    match check_number_operands lv rv with
    | (true, a, b) => if a > b then .ok .True else .ok .False
    | _ => .error (wrongOperandMsg op)
  | .GreaterEqual =>
    match check_number_operands lv rv with
    | (true, a, b) => if a ≥ b then .ok .True else .ok .False
    | _ => .error (wrongOperandMsg op)
  | .Less =>
    match check_number_operands lv rv with
    | (true, a, b) => if a < b then .ok .True else .ok .False
    | _ => .error (wrongOperandMsg op)
  | .LessEqual =>
    match check_number_operands lv rv with
    | (true, a, b) => if a ≤ b then .ok .True else .ok .False
    | _ => .error (wrongOperandMsg op)
  | .EqualEqual =>
    if lv.is_equal rv then .ok .True else .ok .False
  | .BangEqual =>
    if !lv.is_equal rv then .ok .True else .ok .False
  | _ => .error (binaryNoMatchMsg op)

/-- `Interpreter::match_expr`/`evaluate` (interpreter.rs).  The interpreter's
mutable `self.environment` is threaded explicitly: the second component is
the environment state after evaluation, also on the error path (Rust's `?`
leaves `self.environment` as it was at the moment of the error). -/
def evalExpr : Environment → Expr → (Except String ExprLiteral) × Environment
  | env, .Literal v => (.ok v, env)
  | env, .Grouping e => evalExpr env e
  | env, .Unary op r =>
    if op.token_type = .Minus then
      match evalExpr env r with
      | (.ok (.NumberLiteral v), env₁) => (.ok (.NumberLiteral (-v)), env₁)
      | (.ok _, env₁) => (.error (unaryNumberMsg op), env₁)
      | (.error e, env₁) => (.error e, env₁)
    else if op.token_type = .Bang then
      match evalExpr env r with
      | (.ok v, env₁) => (.ok (is_truthy v), env₁)
      | (.error e, env₁) => (.error e, env₁)
    else
      (.error (unaryNoMatchMsg op), env)
  | env, .Variable name =>
    (env.get name, env)
  | env, .Assign name value =>
    match evalExpr env value with
    | (.ok v, env₁) =>
      match env₁.assign name v with
      | .ok env₂ => (.ok v, env₂)
      | .error e => (.error e, env₁)
    | (.error e, env₁) => (.error e, env₁)
  | env, .Logical l op r =>
    match evalExpr env l with
    | (.ok lv, env₁) =>
      if op.token_type = .Or then
        if is_truthy lv = .True then (.ok lv, env₁)
        else evalExpr env₁ r
      else
        if is_truthy lv = .False then (.ok lv, env₁)
        else evalExpr env₁ r
    | (.error e, env₁) => (.error e, env₁)
  | env, .Binary l op r =>
    match evalExpr env l with
    | (.ok lv, env₁) =>
      match evalExpr env₁ r with
      | (.ok rv, env₂) =>
        (binaryOp op lv rv, env₂)
      | (.error e, env₂) => (.error e, env₂)
    | (.error e, env₁) => (.error e, env₁)

/-- The name-error message produced when `Stmt::Block`'s restore unwraps a
missing enclosing scope; the source would panic there, which is modelled as
an error result (unreachable for the child scopes this interpreter pushes). -/
def unwrapNoneMsg : String := "panic: called unwrap on a None value"

mutual

/-- `Interpreter::execute` (interpreter.rs), with the mutable
`self.environment` threaded explicitly; `println!` output is not modelled
(no settled claim mentions it).  The `Stmt::Let` arm skips the binding
whenever the initializer equals the literal `Nil`, and the `Stmt::Block`
arm restores the saved parent only on the success path, exactly as the
source does. -/
def execute : Environment → Stmt → (Except String Unit) × Environment
  | env, .Expression e =>
    match evalExpr env e with
    | (.ok _, env₁) => (.ok (), env₁)
    | (.error m, env₁) => (.error m, env₁)
  | env, .Print e =>
    match evalExpr env e with
    | (.ok _, env₁) => (.ok (), env₁)
    | (.error m, env₁) => (.error m, env₁)
  | env, .Let name initializer =>
    if initializer = Expr.Literal ExprLiteral.Nil then
      (.ok (), env)
    else
      match evalExpr env initializer with
      | (.ok v, env₁) => (.ok (), env₁.define name.lexeme v)
      | (.error m, env₁) => (.error m, env₁)
  | env, .Block statements =>
    match executeAll (Environment.mk [] (some env)) statements with
    | (.ok _, env₁) =>
      match env₁.enclosing with
      | some parent => (.ok (), parent)
      | none => (.error unwrapNoneMsg, env₁)
    | (.error m, env₁) => (.error m, env₁)
  | env, .If condition thenBranch elseBranch =>
    match evalExpr env condition with
    | (.ok c, env₁) =>
      if is_truthy c = ExprLiteral.True then
        execute env₁ thenBranch
      else
        match elseBranch with
        | some v => execute env₁ v
        | none => (.ok (), env₁)
    | (.error m, env₁) => (.error m, env₁)

/-- `Interpreter::interpreter` (interpreter.rs): execute the statements in
order, stopping at the first runtime error. -/
def executeAll : Environment → List Stmt → (Except String Unit) × Environment
  | env, [] => (.ok (), env)
  | env, s :: rest =>
    match execute env s with
    | (.ok _, env₁) => executeAll env₁ rest
    | (.error m, env₁) => (.error m, env₁)

end

/-- `Parser`'s fields (parser.rs): the token vector and the cursor. -/
structure ParserState where
  tokens : List Token
  current : Nat
deriving DecidableEq, Repr

/-- Outcome of a parser operation: success or recoverable parse error (each
carrying the updated state), `crash` for an out-of-bounds access that would
panic in the source, and `out` for exhaustion of the embedding's fuel
argument (an artifact of the embedding only — the source recursion has no
fuel). -/
inductive PRes (α : Type)
  | ok (val : α) (s : ParserState)
  | err (msg : String) (s : ParserState)
  | crash
  | out
deriving DecidableEq, Repr

/-- Sequencing that mirrors Rust's `?`: errors, crashes and fuel exhaustion
propagate. -/
def PRes.bind : PRes α → (α → ParserState → PRes β) → PRes β
  | .ok a s, f => f a s
  | .err m s, _ => .err m s
  | .crash, _ => .crash
  | .out, _ => .out

/-- Did the operation succeed? -/
def PRes.isOk : PRes α → Bool
  | .ok _ _ => true
  | _ => false

/-- `Parser::peek` (parser.rs): `tokens.get(current).unwrap()`; `none`
models the panic of `unwrap` on an out-of-range cursor. -/
def ParserState.peek (s : ParserState) : Option Token :=
  s.tokens.get? s.current

/-- `Parser::previous` (parser.rs): `tokens.get(current - 1).unwrap()`;
`none` models the panic (`current = 0` underflows in the source). -/
def ParserState.previous (s : ParserState) : Option Token :=
  if s.current = 0 then none else s.tokens.get? (s.current - 1)

/-- `Parser::is_at_end` (parser.rs): `peek().token_type == Eof`. -/
def ParserState.is_at_end (s : ParserState) : Option Bool :=
  s.peek.map (fun t => t.token_type = TokenType.Eof)

/-- `Parser::advance` (parser.rs): increment the cursor unless at end, then
return `previous()`. -/
def ParserState.advance (s : ParserState) : Option (Token × ParserState) :=
  match s.is_at_end with
  | none => none
  | some b =>
    let s₁ := if b then s else { s with current := s.current + 1 }
    s₁.previous.map (fun t => (t, s₁))

/-- `Parser::check` (parser.rs): false at end, otherwise compare the peeked
token's type. -/
def ParserState.check (s : ParserState) (tt : TokenType) : Option Bool :=
  match s.is_at_end with
  | none => none
  | some true => some false
  | some false => s.peek.map (fun t => t.token_type = tt)

/-- `Parser::match_tokens` (parser.rs): try each candidate type in order;
on the first `check` success consume the token and report true. -/
def match_tokens : ParserState → List TokenType → Option (Bool × ParserState)
  | s, [] => some (false, s)
  | s, tt :: rest =>
    match s.check tt with
    | none => none
    | some true =>
      match s.advance with
      | none => none
      | some (_, s₁) => some (true, s₁)
    | some false => match_tokens s rest

/-- The error message of `Parser::consume` (parser.rs). -/
def consumeMsg (t : Token) : String :=
  "Parsering error occur when consuming some token at line: "
    ++ toString t.line_number ++ " in " ++ t.lexeme ++ "."

/-- The error message of `Parser::primary`'s final arm (parser.rs). -/
def primaryNoMatchMsg (t : Token) : String :=
  "Parsering error occurs for finding nothing to match with at line "
    ++ toString t.line_number ++ " in " ++ t.lexeme ++ "."

/-- The error message of `Parser::primary`'s String arm (parser.rs). -/
def primaryStringMsg (t : Token) : String :=
  "Error occur at parsering String at line " ++ toString t.line_number
    ++ " in " ++ t.lexeme ++ ", Maybe an error from Scanner."

/-- The error message of `Parser::primary`'s Number arm (parser.rs). -/
def primaryNumberMsg (t : Token) : String :=
  "Error occur at parsering Number at line " ++ toString t.line_number
    ++ " in " ++ t.lexeme ++ ", Maybe an error from Scanner."

/-- The error message of `Parser::assignment`'s invalid-target arm
(parser.rs). -/
def assignTargetMsg (t : Token) : String :=
  "Error occurs when assignment at line: " ++ toString t.line_number
    ++ " at " ++ t.lexeme ++ "."

/-- `Parser::consume` (parser.rs): advance past a token of the expected
type, or report a parse error at the peeked token. -/
def consume (s : ParserState) (tt : TokenType) : PRes Token :=
  match s.check tt with
  | none => .crash
  | some true =>
    match s.advance with
    | none => .crash
    | some (t, s₁) => .ok t s₁
  | some false =>
    match s.peek with
    | none => .crash
    | some t => .err (consumeMsg t) s

/-- The loop body of `Parser::synchronize` (parser.rs): while not at end,
stop after a semicolon or before a statement-introducing keyword, else
advance. -/
def syncLoop : Nat → ParserState → PRes Unit
  | 0, _ => .out
  | fuel + 1, s =>
    match s.is_at_end with
    | none => .crash
    | some true => .ok () s
    | some false =>
      match s.previous with
      | none => .crash
      | some prev =>
        if prev.token_type = TokenType.Semicolon then .ok () s
        else
          match s.peek with
          | none => .crash
          | some t =>
            match t.token_type with
            | .CLass | .Fun | .Var | .For | .If | .While | .Print | .Return =>
              .ok () s
            | _ =>
              match s.advance with
              | none => .crash
              | some (_, s₁) => syncLoop fuel s₁

/-- `Parser::synchronize` (parser.rs): consume the offending token, then
discard tokens until a statement boundary. -/
def synchronize : Nat → ParserState → PRes Unit
  | 0, _ => .out
  | fuel + 1, s =>
    match s.advance with
    | none => .crash
    | some (_, s₁) => syncLoop fuel s₁

mutual

/-- `Parser::expression` (parser.rs): `expression -> assignment`. -/
def expression : Nat → ParserState → PRes Expr
  | 0, _ => .out
  | fuel + 1, s => assignment fuel s

/-- `Parser::assignment` (parser.rs): parse an equality; on `=`, parse the
right-hand side first, then demand that the left side is a bare variable
reference. -/
def assignment : Nat → ParserState → PRes Expr
  | 0, _ => .out
  | fuel + 1, s =>
    (equality fuel s).bind fun expr s₁ =>
      match match_tokens s₁ [TokenType.Equal] with
      | none => .crash
      | some (true, s₂) =>
        match s₂.previous with
        | none => .crash
        | some equals =>
          (assignment fuel s₂).bind fun value s₃ =>
            match expr with
            | .Variable name => .ok (.Assign name value) s₃
            | _ => .err (assignTargetMsg equals) s₃
      | some (false, s₂) => .ok expr s₂

/-- `Parser::equality` (parser.rs). -/
def equality : Nat → ParserState → PRes Expr
  | 0, _ => .out
  | fuel + 1, s =>
    (comparision fuel s).bind fun e s₁ => equalityLoop fuel e s₁

/-- The `while` loop of `Parser::equality` (parser.rs). -/
def equalityLoop : Nat → Expr → ParserState → PRes Expr
  | 0, _, _ => .out
  | fuel + 1, e, s =>
    match match_tokens s [TokenType.BangEqual, TokenType.EqualEqual] with
    | none => .crash
    | some (true, s₁) =>
      match s₁.previous with
      | none => .crash
      | some op =>
        (comparision fuel s₁).bind fun right s₂ =>
          equalityLoop fuel (.Binary e op right) s₂
    | some (false, s₁) => .ok e s₁

/-- `Parser::comparision` (parser.rs), source spelling kept. -/
def comparision : Nat → ParserState → PRes Expr
  | 0, _ => .out
  | fuel + 1, s =>
    (term fuel s).bind fun e s₁ => comparisionLoop fuel e s₁

/-- The `while` loop of `Parser::comparision` (parser.rs). -/
def comparisionLoop : Nat → Expr → ParserState → PRes Expr
  | 0, _, _ => .out
  | fuel + 1, e, s =>
    match match_tokens s [TokenType.Greater, TokenType.GreaterEqual,
        TokenType.Less, TokenType.LessEqual] with
    | none => .crash
    | some (true, s₁) =>
      match s₁.previous with
      | none => .crash
      | some op =>
        (term fuel s₁).bind fun right s₂ =>
          comparisionLoop fuel (.Binary e op right) s₂
    | some (false, s₁) => .ok e s₁

/-- `Parser::term` (parser.rs). -/
def term : Nat → ParserState → PRes Expr
  | 0, _ => .out
  | fuel + 1, s =>
    (factor fuel s).bind fun e s₁ => termLoop fuel e s₁

/-- The `while` loop of `Parser::term` (parser.rs). -/
def termLoop : Nat → Expr → ParserState → PRes Expr
  | 0, _, _ => .out
  | fuel + 1, e, s =>
    match match_tokens s [TokenType.Minus, TokenType.Plus] with
    | none => .crash
    | some (true, s₁) =>
      match s₁.previous with
      | none => .crash
      | some op =>
        (factor fuel s₁).bind fun right s₂ =>
          termLoop fuel (.Binary e op right) s₂
    | some (false, s₁) => .ok e s₁

/-- `Parser::factor` (parser.rs). -/
def factor : Nat → ParserState → PRes Expr
  | 0, _ => .out
  | fuel + 1, s =>
    (unary fuel s).bind fun e s₁ => factorLoop fuel e s₁

/-- The `while` loop of `Parser::factor` (parser.rs). -/
def factorLoop : Nat → Expr → ParserState → PRes Expr
  | 0, _, _ => .out
  | fuel + 1, e, s =>
    match match_tokens s [TokenType.Slash, TokenType.Star] with
    | none => .crash
    | some (true, s₁) =>
      match s₁.previous with
      | none => .crash
      | some op =>
        (unary fuel s₁).bind fun right s₂ =>
          factorLoop fuel (.Binary e op right) s₂
    | some (false, s₁) => .ok e s₁

/-- `Parser::unary` (parser.rs). -/
def unary : Nat → ParserState → PRes Expr
  | 0, _ => .out
  | fuel + 1, s =>
    match match_tokens s [TokenType.Bang, TokenType.Minus] with
    | none => .crash
    | some (true, s₁) =>
      match s₁.previous with
      | none => .crash
      | some op =>
        (unary fuel s₁).bind fun right s₂ => .ok (.Unary op right) s₂
    | some (false, _) => primary fuel s

/-- `Parser::primary` (parser.rs): literals, identifiers and parenthesized
groupings, in the source's testing order. -/
def primary : Nat → ParserState → PRes Expr
  | 0, _ => .out
  | fuel + 1, s =>
    match match_tokens s [TokenType.False] with
    | none => .crash
    | some (true, s₁) => .ok (.Literal .False) s₁
    | some (false, _) =>
    match match_tokens s [TokenType.True] with
    | none => .crash
    | some (true, s₁) => .ok (.Literal .True) s₁
    | some (false, _) =>
    match match_tokens s [TokenType.Nil] with
    | none => .crash
    | some (true, s₁) => .ok (.Literal .Nil) s₁
    | some (false, _) =>
    match match_tokens s [TokenType.String] with
    | none => .crash
    | some (true, s₁) =>
      match s₁.previous with
      | none => .crash
      | some prev =>
        match prev.literial with
        | some (.StringValue v) => .ok (.Literal (.StringLiteral v)) s₁
        | _ =>
          match s₁.peek with
          | none => .crash
          | some t => .err (primaryStringMsg t) s₁
    | some (false, _) =>
    match match_tokens s [TokenType.Number] with
    | none => .crash
    | some (true, s₁) =>
      match s₁.previous with
      | none => .crash
      | some prev =>
        match prev.literial with
        | some (.FloatValue v) => .ok (.Literal (.NumberLiteral v)) s₁
        | _ =>
          match s₁.peek with
          | none => .crash
          | some t => .err (primaryNumberMsg t) s₁
    | some (false, _) =>
    match match_tokens s [TokenType.Identifier] with
    | none => .crash
    | some (true, s₁) =>
      match s₁.previous with
      | none => .crash
      | some prev => .ok (.Variable prev) s₁
    | some (false, _) =>
    match match_tokens s [TokenType.LeftParen] with
    | none => .crash
    | some (true, s₁) =>
      (expression fuel s₁).bind fun e s₂ =>
        (consume s₂ TokenType.RightParen).bind fun _ s₃ =>
          .ok (.Grouping e) s₃
    | some (false, _) =>
      match s.peek with
      | none => .crash
      | some t => .err (primaryNoMatchMsg t) s

/-- `Parser::declaration` (parser.rs): try `var_declaration` after a `let`
keyword, otherwise `statement`; on error, synchronize and still return the
error. -/
def declaration : Nat → ParserState → PRes Stmt
  | 0, _ => .out
  | fuel + 1, s =>
    match match_tokens s [TokenType.Var] with
    | none => .crash
    | some (true, s₁) =>
      match var_declaration fuel s₁ with
      | .ok v s₂ => .ok v s₂
      | .err m s₂ => (synchronize fuel s₂).bind fun _ s₃ => .err m s₃
      | .crash => .crash
      | .out => .out
    | some (false, _) =>
      match statement fuel s with
      | .ok v s₂ => .ok v s₂
      | .err m s₂ => (synchronize fuel s₂).bind fun _ s₃ => .err m s₃
      | .crash => .crash
      | .out => .out

/-- `Parser::var_declaration` (parser.rs): consume the identifier; a missing
initializer is represented as the literal `Nil`; consume the trailing
semicolon. -/
def var_declaration : Nat → ParserState → PRes Stmt
  | 0, _ => .out
  | fuel + 1, s =>
    (consume s TokenType.Identifier).bind fun name s₁ =>
      match match_tokens s₁ [TokenType.Equal] with
      | none => .crash
      | some (true, s₂) =>
        (expression fuel s₂).bind fun init s₃ =>
          (consume s₃ TokenType.Semicolon).bind fun _ s₄ =>
            .ok (.Let name init) s₄
      | some (false, s₂) =>
        (consume s₂ TokenType.Semicolon).bind fun _ s₃ =>
          .ok (.Let name (.Literal .Nil)) s₃

/-- `Parser::statement` (parser.rs): print statement, block, or expression
statement — the source has no arm for `if`. -/
def statement : Nat → ParserState → PRes Stmt
  | 0, _ => .out
  | fuel + 1, s =>
    match match_tokens s [TokenType.Print] with
    | none => .crash
    | some (true, s₁) => print_statement fuel s₁
    | some (false, _) =>
      match match_tokens s [TokenType.LeftBrace] with
      | none => .crash
      | some (true, s₁) => block fuel s₁
      | some (false, _) => expression_statement fuel s

/-- `Parser::print_statement` (parser.rs). -/
def print_statement : Nat → ParserState → PRes Stmt
  | 0, _ => .out
  | fuel + 1, s =>
    (expression fuel s).bind fun e s₁ =>
      (consume s₁ TokenType.Semicolon).bind fun _ s₂ =>
        .ok (.Print e) s₂

/-- `Parser::expression_statement` (parser.rs). -/
def expression_statement : Nat → ParserState → PRes Stmt
  | 0, _ => .out
  | fuel + 1, s =>
    (expression fuel s).bind fun e s₁ =>
      (consume s₁ TokenType.Semicolon).bind fun _ s₂ =>
        .ok (.Expression e) s₂

/-- `Parser::block` (parser.rs), entered after the `{` has been consumed. -/
def block : Nat → ParserState → PRes Stmt
  | 0, _ => .out
  | fuel + 1, s => blockLoop fuel [] s

/-- The `while` loop of `Parser::block` (parser.rs): gather declarations
until a `}` or the end of input, then consume the `}`. -/
def blockLoop : Nat → List Stmt → ParserState → PRes Stmt
  | 0, _, _ => .out
  | fuel + 1, acc, s =>
    match s.check TokenType.RightBrace with
    | none => .crash
    | some cb =>
      match s.is_at_end with
      | none => .crash
      | some e =>
        if !cb && !e then
          (declaration fuel s).bind fun d s₁ => blockLoop fuel (acc ++ [d]) s₁
        else
          (consume s TokenType.RightBrace).bind fun _ s₁ =>
            .ok (.Block acc) s₁

end

/-- The `while` loop of `Parser::parse` (parser.rs): gather declarations
until the end marker; Rust's `?` propagates the first declaration error. -/
def parseLoop : Nat → List Stmt → ParserState → PRes (List Stmt)
  | 0, _, _ => .out
  | fuel + 1, acc, s =>
    match s.is_at_end with
    | none => .crash
    | some true => .ok acc s
    | some false =>
      (declaration fuel s).bind fun d s₁ => parseLoop fuel (acc ++ [d]) s₁

/-- `Parser::parse` (parser.rs). -/
def parse (fuel : Nat) (s : ParserState) : PRes (List Stmt) :=
  parseLoop fuel [] s

/-! Concrete inputs used by the counterexamples and witnesses below. -/

/-- The global scope with no bindings (`Interpreter::new`). -/
def emptyEnv : Environment := .mk [] none

/-- A `;` token. -/
def tokSemi : Token := ⟨TokenType.Semicolon, ";", none, 1⟩

/-- A number token with payload `q`. -/
def tokNum (q : ℚ) : Token := ⟨TokenType.Number, "num", some (.FloatValue q), 1⟩

/-- The end-of-input marker token. -/
def tokEof : Token := ⟨TokenType.Eof, "", none, 1⟩

/-- The variable-declaration keyword token (`TokenType::Var`). -/
def tokLet : Token := ⟨TokenType.Var, "let", none, 1⟩

/-- An `=` token. -/
def tokEq : Token := ⟨TokenType.Equal, "=", none, 1⟩

/-- A `nil` keyword token. -/
def tokNil : Token := ⟨TokenType.Nil, "nil", none, 1⟩

/-- An `if` keyword token. -/
def tokIf : Token := ⟨TokenType.If, "if", none, 1⟩

/-- A `true` keyword token. -/
def tokTrue : Token := ⟨TokenType.True, "true", none, 1⟩

/-- A `!` token. -/
def tokBang : Token := ⟨TokenType.Bang, "!", none, 1⟩

/-- An `and` keyword token. -/
def tokAnd : Token := ⟨TokenType.And, "and", none, 1⟩

/-- An `or` keyword token. -/
def tokOr : Token := ⟨TokenType.Or, "or", none, 1⟩

/-- A `+` token. -/
def tokPlus : Token := ⟨TokenType.Plus, "+", none, 1⟩

/-- An identifier token `x`. -/
def tokX : Token := ⟨TokenType.Identifier, "x", none, 1⟩

/-- Token stream of `; num1 ; num2 ;` — one malformed statement (a bare
semicolon) followed by two well-formed expression statements. -/
def c1Toks : List Token := [tokSemi, tokNum 1, tokSemi, tokNum 2, tokSemi, tokEof]

/-- Token stream of `let x = nil ;`. -/
def letNilToks : List Token := [tokLet, tokX, tokEq, tokNil, tokSemi, tokEof]

/-- Token stream of `let x ;`. -/
def letBareToks : List Token := [tokLet, tokX, tokSemi, tokEof]

/-- Token stream of `if true num1 ;`. -/
def ifToks : List Token := [tokIf, tokTrue, tokNum 1, tokSemi, tokEof]

/-! Invariants for the parser-safety claim. -/

/-- A well-terminated token stream: non-empty, with the end-of-input marker
as its last token. -/
def WT (ts : List Token) : Prop :=
  ts ≠ [] ∧ (ts.getLast?).map Token.token_type = some TokenType.Eof

/-- The parser-state invariant: a well-terminated stream and an in-bounds
cursor. -/
def PInv (s : ParserState) : Prop :=
  WT s.tokens ∧ s.current < s.tokens.length

/-- The tokens are untouched and the cursor has not moved backwards. -/
def progressed (s₀ s₁ : ParserState) : Prop :=
  s₁.tokens = s₀.tokens ∧ s₀.current ≤ s₁.current

/-- Precondition of `Parser::advance`'s `previous()` call: either the cursor
has consumed at least one token already, or it does not sit on the end
marker. -/
def advOK (s : ParserState) : Prop :=
  1 ≤ s.current ∨ ∀ t, s.peek = some t → t.token_type ≠ TokenType.Eof

/-- Safety of a parser outcome relative to its start state: it is not a
crash, and on both regular outcomes the invariant holds again and the
cursor moved monotonically over unchanged tokens. -/
def StOK (s₀ : ParserState) : PRes α → Prop
  | .ok _ s₁ => PInv s₁ ∧ progressed s₀ s₁
  | .err _ s₁ => PInv s₁ ∧ progressed s₀ s₁
  | .crash => False
  | .out => True

/-- Bundle of safety statements, one per recursive-descent rule, at a given
fuel; the parser-safety proof proceeds by induction on the fuel with this
bundle as the motive. -/
structure RulesSafe (fuel : Nat) : Prop where
  expr : ∀ s, PInv s → StOK s (expression fuel s)
  assign : ∀ s, PInv s → StOK s (assignment fuel s)
  eq : ∀ s, PInv s → StOK s (equality fuel s)
  eqLoop : ∀ e s, PInv s → StOK s (equalityLoop fuel e s)
  cmp : ∀ s, PInv s → StOK s (comparision fuel s)
  cmpLoop : ∀ e s, PInv s → StOK s (comparisionLoop fuel e s)
  trm : ∀ s, PInv s → StOK s (term fuel s)
  trmLoop : ∀ e s, PInv s → StOK s (termLoop fuel e s)
  fac : ∀ s, PInv s → StOK s (factor fuel s)
  facLoop : ∀ e s, PInv s → StOK s (factorLoop fuel e s)
  una : ∀ s, PInv s → StOK s (unary fuel s)
  prim : ∀ s, PInv s → StOK s (primary fuel s)
  decl : ∀ s, PInv s → advOK s → StOK s (declaration fuel s)
  stmt : ∀ s, PInv s → StOK s (statement fuel s)
  varDecl : ∀ s, PInv s → StOK s (var_declaration fuel s)
  printStmt : ∀ s, PInv s → StOK s (print_statement fuel s)
  exprStmt : ∀ s, PInv s → StOK s (expression_statement fuel s)
  blk : ∀ s, PInv s → StOK s (block fuel s)
  blkLoop : ∀ acc s, PInv s → StOK s (blockLoop fuel acc s)

/-! Claim theorems. -/

/-- C1 counterexample: on the stream `; num1 ; num2 ;` — one malformed
statement followed by two well-formed statements — `parse` does not return
the two well-formed statements: it fails with the first error. -/
theorem C1_counterexample : (parse 100 ⟨c1Toks, 0⟩).isOk = false := rfl

/-- C1 amended: `declaration` records the error of the malformed statement
and resynchronizes at the statement boundary (the cursor stops right after
the offending `;`), but `parse` propagates that first error via `?` and
returns no statements; parsing resumed from the resynchronized state would
yield exactly the two well-formed statements. -/
theorem C1_amended :
    declaration 100 ⟨c1Toks, 0⟩ = .err (primaryNoMatchMsg tokSemi) ⟨c1Toks, 1⟩
  ∧ parse 100 ⟨c1Toks, 0⟩ = .err (primaryNoMatchMsg tokSemi) ⟨c1Toks, 1⟩
  ∧ parse 100 ⟨c1Toks, 1⟩
      = .ok [.Expression (.Literal (.NumberLiteral 1)),
             .Expression (.Literal (.NumberLiteral 2))] ⟨c1Toks, 5⟩ :=
  ⟨rfl, rfl, rfl⟩

/-- C2: the source's unary Bang returns `is_truthy` of the operand WITHOUT
complementing it: `!true` evaluates to `true` (the spec demands the
truthiness-complement, i.e. `false`); in general Bang yields the operand's
truthiness itself. -/
theorem C2_bang_not_complemented :
    evalExpr emptyEnv (.Unary tokBang (.Literal .True)) = (.ok .True, emptyEnv)
  ∧ ∀ (env : Environment) (v : ExprLiteral),
      evalExpr env (.Unary tokBang (.Literal v)) = (.ok (is_truthy v), env) :=
  ⟨rfl, fun _ _ => rfl⟩

/-- C3: executing a Block whose body fails at runtime (here: reading the
undefined variable `x`) returns the error with the interpreter's current
environment still being the un-popped child scope, not the parent it
started from. -/
theorem C3_block_scope_not_restored_on_error :
    execute emptyEnv (.Block [.Expression (.Variable tokX)])
      = (.error (nameErrorMsg tokX), Environment.mk [] (some emptyEnv))
  ∧ Environment.mk [] (some emptyEnv) ≠ emptyEnv :=
  ⟨rfl, by simp [emptyEnv]⟩

/-- C4 counterexample: `let x = nil ;` has an initializer present in the
source text, yet executing the parsed declaration performs no binding: the
parser represents the initializer as the literal `Nil`, the interpreter
skips the binding for it, the environment is unchanged and the name stays
unresolved. -/
theorem C4_counterexample :
    parse 100 ⟨letNilToks, 0⟩ = .ok [.Let tokX (.Literal .Nil)] ⟨letNilToks, 5⟩
  ∧ execute emptyEnv (.Let tokX (.Literal .Nil)) = (.ok (), emptyEnv)
  ∧ emptyEnv.get tokX = .error (nameErrorMsg tokX) :=
  ⟨rfl, rfl, rfl⟩

/-- C4 amended: executing a variable declaration evaluates the initializer
and binds the name in the current scope whenever the initializer expression
is not the bare literal `Nil`; if it is the bare literal `Nil` (which is
also how the parser represents an absent initializer), no binding at all is
performed and the environment is unchanged. -/
theorem C4_amended (env env₁ : Environment) (name : Token) (init : Expr)
    (v : ExprLiteral) (hnil : init ≠ Expr.Literal ExprLiteral.Nil)
    (hev : evalExpr env init = (.ok v, env₁)) :
    execute env (.Let name init) = (.ok (), env₁.define name.lexeme v)
  ∧ ∀ (env' : Environment) (name' : Token),
      execute env' (.Let name' (.Literal .Nil)) = (.ok (), env') := by
  constructor
  · simp only [execute, if_neg hnil, hev]
  · intro env' name'
    rfl

/-- C4 amended, witness at a concrete input: `let x = 1` binds, the nil
form does not. -/
theorem C4_amended_witness :
    execute emptyEnv (.Let tokX (.Literal (.NumberLiteral 1)))
      = (.ok (), emptyEnv.define tokX.lexeme (.NumberLiteral 1))
  ∧ ∀ (env' : Environment) (name' : Token),
      execute env' (.Let name' (.Literal .Nil)) = (.ok (), env') :=
  C4_amended emptyEnv emptyEnv tokX (.Literal (.NumberLiteral 1))
    (.NumberLiteral 1) (by simp) rfl

/-- C6: logical expressions evaluate the left operand first and
short-circuit: with `or` a truthy left value is returned as-is without the
right operand ever being evaluated, with `and` a falsy left value is
returned as-is; otherwise the result (value and environment effects) is
exactly that of evaluating the right operand — and the returned value is
the operand value itself, not a coerced Boolean. -/
theorem C6_logical_short_circuit (env env₁ : Environment) (l r : Expr)
    (op : Token) (v : ExprLiteral)
    (hl : evalExpr env l = (.ok v, env₁)) :
    (op.token_type = TokenType.Or → is_truthy v = .True →
        evalExpr env (.Logical l op r) = (.ok v, env₁))
  ∧ (op.token_type = TokenType.Or → is_truthy v = .False →
        evalExpr env (.Logical l op r) = evalExpr env₁ r)
  ∧ (op.token_type = TokenType.And → is_truthy v = .False →
        evalExpr env (.Logical l op r) = (.ok v, env₁))
  ∧ (op.token_type = TokenType.And → is_truthy v = .True →
        evalExpr env (.Logical l op r) = evalExpr env₁ r) := by
  refine ⟨?_, ?_, ?_, ?_⟩ <;> intro hop ht <;> simp [evalExpr, hl, hop, ht]

/-- C6 witness: `false and nil` returns the left value `false` untouched;
the right operand is a variable read that would fail if evaluated. -/
theorem C6_witness :
    evalExpr emptyEnv (.Logical (.Literal .False) tokAnd (.Variable tokX))
      = (.ok .False, emptyEnv) :=
  (C6_logical_short_circuit emptyEnv emptyEnv (.Literal .False)
    (.Variable tokX) tokAnd .False rfl).2.2.1 rfl rfl

/-- C7: binary `+` adds two Numbers, concatenates two Strings, and fails
with the operand-type error for every other pairing of value kinds — no
implicit coercion. -/
theorem C7_plus_semantics (env : Environment) (plus : Token)
    (hp : plus.token_type = TokenType.Plus) :
    (∀ a b : ℚ,
      evalExpr env (.Binary (.Literal (.NumberLiteral a)) plus (.Literal (.NumberLiteral b)))
        = (.ok (.NumberLiteral (a + b)), env))
  ∧ (∀ u w : String,
      evalExpr env (.Binary (.Literal (.StringLiteral u)) plus (.Literal (.StringLiteral w)))
        = (.ok (.StringLiteral (u ++ w)), env))
  ∧ (∀ l r : ExprLiteral,
      (¬ ∃ a b : ℚ, l = .NumberLiteral a ∧ r = .NumberLiteral b) →
      (¬ ∃ u w : String, l = .StringLiteral u ∧ r = .StringLiteral w) →
      evalExpr env (.Binary (.Literal l) plus (.Literal r))
        = (.error (wrongOperandMsg plus), env)) := by
  refine ⟨?_, ?_, ?_⟩
  · intro a b
    simp [evalExpr, binaryOp, hp]
  · intro u w
    simp [evalExpr, binaryOp, hp]
  · intro l r h1 h2
    cases l <;> cases r <;> simp_all [evalExpr, binaryOp, hp]

/-- C7 witness: `1 + 2`, `"a" + "b"`, and the mixed pairing `"a" + 1`. -/
theorem C7_plus_witness :
    evalExpr emptyEnv (.Binary (.Literal (.NumberLiteral 1)) tokPlus (.Literal (.NumberLiteral 2)))
      = (.ok (.NumberLiteral (1 + 2)), emptyEnv)
  ∧ evalExpr emptyEnv (.Binary (.Literal (.StringLiteral "a")) tokPlus (.Literal (.StringLiteral "b")))
      = (.ok (.StringLiteral ("a" ++ "b")), emptyEnv)
  ∧ evalExpr emptyEnv (.Binary (.Literal (.StringLiteral "a")) tokPlus (.Literal (.NumberLiteral 1)))
      = (.error (wrongOperandMsg tokPlus), emptyEnv) :=
  ⟨(C7_plus_semantics emptyEnv tokPlus rfl).1 1 2,
   (C7_plus_semantics emptyEnv tokPlus rfl).2.1 "a" "b",
   (C7_plus_semantics emptyEnv tokPlus rfl).2.2 _ _ (by simp) (by simp)⟩

/-- C10: `let x = nil ;` and `let x ;` parse to the identical statement
(initializer = literal `Nil`), executing that statement never changes the
environment (no binding is performed), and reading `x` afterwards in the
untouched empty global scope is a `NameError`. -/
theorem C10_let_nil_no_binding :
    parse 100 ⟨letNilToks, 0⟩ = .ok [.Let tokX (.Literal .Nil)] ⟨letNilToks, 5⟩
  ∧ parse 100 ⟨letBareToks, 0⟩ = .ok [.Let tokX (.Literal .Nil)] ⟨letBareToks, 3⟩
  ∧ (∀ (env : Environment) (name : Token),
      execute env (.Let name (.Literal .Nil)) = (.ok (), env))
  ∧ evalExpr emptyEnv (.Variable tokX) = (.error (nameErrorMsg tokX), emptyEnv) :=
  ⟨rfl, rfl, fun _ _ => rfl, rfl⟩

/-- A non-`ok` result stays non-`ok` through `PRes.bind` (Rust's `?`). -/
theorem PRes.bind_isOk_false {r : PRes α} (f : α → ParserState → PRes β)
    (h : r.isOk = false) : (r.bind f).isOk = false := by
  cases r <;> simp_all [PRes.isOk, PRes.bind]

/-- `match_tokens` reports false and leaves the state untouched when the
peeked token's type is none of the candidates. -/
theorem match_tokens_none_of_ne (s : ParserState) (t : Token)
    (hp : s.peek = some t) :
    ∀ tts : List TokenType, (∀ tt ∈ tts, t.token_type ≠ tt) →
      match_tokens s tts = some (false, s) := by
  intro tts
  induction tts with
  | nil => intro _; rfl
  | cons tt rest ih =>
    intro h
    have hne : t.token_type ≠ tt := h tt (by simp)
    have hck : s.check tt = some false := by
      by_cases he : t.token_type = TokenType.Eof
      · simp [ParserState.check, ParserState.is_at_end, hp, he]
      · simp [ParserState.check, ParserState.is_at_end, hp, he, hne]
    simp [match_tokens, hck, ih (fun x hx => h x (by simp [hx]))]

/-- `primary` cannot parse a statement-keyword token such as `if`. -/
theorem primary_isOk_false_on_if :
    ∀ (fuel : Nat) (s : ParserState) (t : Token), s.peek = some t →
      t.token_type = TokenType.If → (primary fuel s).isOk = false := by
  intro fuel s t hp ht
  cases fuel with
  | zero => rfl
  | succ f =>
    have h1 := match_tokens_none_of_ne s t hp [TokenType.False] (by simp [ht])
    have h2 := match_tokens_none_of_ne s t hp [TokenType.True] (by simp [ht])
    have h3 := match_tokens_none_of_ne s t hp [TokenType.Nil] (by simp [ht])
    have h4 := match_tokens_none_of_ne s t hp [TokenType.String] (by simp [ht])
    have h5 := match_tokens_none_of_ne s t hp [TokenType.Number] (by simp [ht])
    have h6 := match_tokens_none_of_ne s t hp [TokenType.Identifier] (by simp [ht])
    have h7 := match_tokens_none_of_ne s t hp [TokenType.LeftParen] (by simp [ht])
    simp [primary, h1, h2, h3, h4, h5, h6, h7, hp, PRes.isOk]

/-- `unary` cannot parse an `if` token. -/
theorem unary_isOk_false_on_if :
    ∀ (fuel : Nat) (s : ParserState) (t : Token), s.peek = some t →
      t.token_type = TokenType.If → (unary fuel s).isOk = false := by
  intro fuel s t hp ht
  cases fuel with
  | zero => rfl
  | succ f =>
    have h1 := match_tokens_none_of_ne s t hp [TokenType.Bang, TokenType.Minus]
      (by simp [ht])
    simp [unary, h1, primary_isOk_false_on_if f s t hp ht]

/-- `factor` cannot parse an `if` token. -/
theorem factor_isOk_false_on_if :
    ∀ (fuel : Nat) (s : ParserState) (t : Token), s.peek = some t →
      t.token_type = TokenType.If → (factor fuel s).isOk = false := by
  intro fuel s t hp ht
  cases fuel with
  | zero => rfl
  | succ f =>
    simp only [factor]
    exact PRes.bind_isOk_false _ (unary_isOk_false_on_if f s t hp ht)

/-- `term` cannot parse an `if` token. -/
theorem term_isOk_false_on_if :
    ∀ (fuel : Nat) (s : ParserState) (t : Token), s.peek = some t →
      t.token_type = TokenType.If → (term fuel s).isOk = false := by
  intro fuel s t hp ht
  cases fuel with
  | zero => rfl
  | succ f =>
    simp only [term]
    exact PRes.bind_isOk_false _ (factor_isOk_false_on_if f s t hp ht)

/-- `comparision` cannot parse an `if` token. -/
theorem comparision_isOk_false_on_if :
    ∀ (fuel : Nat) (s : ParserState) (t : Token), s.peek = some t →
      t.token_type = TokenType.If → (comparision fuel s).isOk = false := by
  intro fuel s t hp ht
  cases fuel with
  | zero => rfl
  | succ f =>
    simp only [comparision]
    exact PRes.bind_isOk_false _ (term_isOk_false_on_if f s t hp ht)

/-- `equality` cannot parse an `if` token. -/
theorem equality_isOk_false_on_if :
    ∀ (fuel : Nat) (s : ParserState) (t : Token), s.peek = some t →
      t.token_type = TokenType.If → (equality fuel s).isOk = false := by
  intro fuel s t hp ht
  cases fuel with
  | zero => rfl
  | succ f =>
    simp only [equality]
    exact PRes.bind_isOk_false _ (comparision_isOk_false_on_if f s t hp ht)

/-- `assignment` cannot parse an `if` token. -/
theorem assignment_isOk_false_on_if :
    ∀ (fuel : Nat) (s : ParserState) (t : Token), s.peek = some t →
      t.token_type = TokenType.If → (assignment fuel s).isOk = false := by
  intro fuel s t hp ht
  cases fuel with
  | zero => rfl
  | succ f =>
    simp only [assignment]
    exact PRes.bind_isOk_false _ (equality_isOk_false_on_if f s t hp ht)

/-- `expression` cannot parse an `if` token. -/
theorem expression_isOk_false_on_if :
    ∀ (fuel : Nat) (s : ParserState) (t : Token), s.peek = some t →
      t.token_type = TokenType.If → (expression fuel s).isOk = false := by
  intro fuel s t hp ht
  cases fuel with
  | zero => rfl
  | succ f =>
    simp only [expression]
    exact assignment_isOk_false_on_if f s t hp ht

/-- `expression_statement` cannot parse an `if` token. -/
theorem expression_statement_isOk_false_on_if :
    ∀ (fuel : Nat) (s : ParserState) (t : Token), s.peek = some t →
      t.token_type = TokenType.If →
      (expression_statement fuel s).isOk = false := by
  intro fuel s t hp ht
  cases fuel with
  | zero => rfl
  | succ f =>
    simp only [expression_statement]
    exact PRes.bind_isOk_false _ (expression_isOk_false_on_if f s t hp ht)

/-- C5 counterexample: the statement rule rejects the token stream of
`if true num ;` — the claim says it accepts every if-led statement. -/
theorem C5_counterexample : (statement 100 ⟨ifToks, 0⟩).isOk = false := rfl

/-- C5 amended: the parser's statement rule handles only print statements,
blocks and expression statements; every statement beginning with the `if`
keyword fails to parse (the `Stmt::If` node and its interpretation exist,
but no parser rule ever produces it), concretely with the
nothing-to-match-with error on `if true num ;`. -/
theorem C5_amended :
    (∀ (fuel : Nat) (s : ParserState) (t : Token), s.peek = some t →
      t.token_type = TokenType.If → (statement fuel s).isOk = false)
  ∧ statement 100 ⟨ifToks, 0⟩ = .err (primaryNoMatchMsg tokIf) ⟨ifToks, 0⟩ := by
  constructor
  · intro fuel s t hp ht
    cases fuel with
    | zero => rfl
    | succ f =>
      have h1 := match_tokens_none_of_ne s t hp [TokenType.Print] (by simp [ht])
      have h2 := match_tokens_none_of_ne s t hp [TokenType.LeftBrace] (by simp [ht])
      simp [statement, h1, h2,
        expression_statement_isOk_false_on_if f s t hp ht]
  · rfl

/-- C5 amended, witness: the universal part applied to the concrete if-led
stream. -/
theorem C5_amended_witness : (statement 20 ⟨ifToks, 0⟩).isOk = false :=
  C5_amended.1 20 ⟨ifToks, 0⟩ tokIf rfl rfl

/-- In a well-terminated stream, a non-end-marker position is never the
last one. -/
theorem eof_succ_lt {ts : List Token} {i : Nat} {t : Token} (hwt : WT ts)
    (hi : ts.get? i = some t) (hne : t.token_type ≠ TokenType.Eof) :
    i + 1 < ts.length := by
  rw [List.get?_eq_getElem?] at hi
  obtain ⟨hlt, hget⟩ := List.getElem?_eq_some.mp hi
  rcases Nat.lt_or_ge (i + 1) ts.length with h | h
  · exact h
  · exfalso
    obtain ⟨_, hmap⟩ := hwt
    rw [List.getLast?_eq_getElem? ts] at hmap
    have hi_eq : i = ts.length - 1 := by omega
    subst hi_eq
    rw [List.getElem?_eq_getElem hlt] at hmap
    simp only [Option.map_some'] at hmap
    rw [hget] at hmap
    exact hne (Option.some.injEq _ _ ▸ hmap)

/-- Under the invariant, `peek` is in bounds. -/
theorem peek_eq_some {s : ParserState} (h : PInv s) :
    ∃ t, s.peek = some t := by
  obtain ⟨_, hlt⟩ := h
  refine ⟨s.tokens.get ⟨s.current, hlt⟩, ?_⟩
  simp [ParserState.peek, List.get?_eq_get hlt]

/-- With at least one consumed token, `previous` is in bounds. -/
theorem previous_eq_some {s : ParserState} (h : PInv s)
    (h1 : 1 ≤ s.current) : ∃ t, s.previous = some t := by
  obtain ⟨_, hlt⟩ := h
  have hlt' : s.current - 1 < s.tokens.length := by omega
  refine ⟨s.tokens.get ⟨s.current - 1, hlt'⟩, ?_⟩
  have hne : ¬ s.current = 0 := by omega
  simp [ParserState.previous, hne, List.get?_eq_get hlt']

/-- `progressed` is reflexive. -/
theorem progressed_refl (s : ParserState) : progressed s s := ⟨rfl, le_refl _⟩

/-- `progressed` is transitive. -/
theorem progressed_trans {s₀ s₁ s₂ : ParserState} (h : progressed s₀ s₁)
    (h' : progressed s₁ s₂) : progressed s₀ s₂ :=
  ⟨h'.1.trans h.1, h.2.trans h'.2⟩

/-- Safety is preserved backwards along `progressed`. -/
theorem StOK_mono {s₀ s₁ : ParserState} {r : PRes α}
    (hp : progressed s₀ s₁) (h : StOK s₁ r) : StOK s₀ r := by
  cases r with
  | ok a s₂ => exact ⟨h.1, progressed_trans hp h.2⟩
  | err m s₂ => exact ⟨h.1, progressed_trans hp h.2⟩
  | crash => exact h
  | out => trivial

/-- The `advance` precondition is preserved forwards along `progressed`. -/
theorem advOK_mono {s₀ s₁ : ParserState} (h : advOK s₀)
    (hp : progressed s₀ s₁) : advOK s₁ := by
  rcases Nat.lt_or_ge s₀.current s₁.current with hlt | hge
  · exact Or.inl (by omega)
  · have heq : s₁.current = s₀.current := le_antisymm (by omega) hp.2
    rcases h with h1 | h2
    · exact Or.inl (by omega)
    · refine Or.inr ?_
      intro t hpk
      apply h2
      rw [← hpk]
      simp [ParserState.peek, hp.1, heq]

/-- Under the invariant and the `advOK` precondition, `advance` succeeds,
preserves the invariant, moves forward, and leaves a non-zero cursor. -/
theorem advance_safe {s : ParserState} (h : PInv s) (ha : advOK s) :
    ∃ t s₁, s.advance = some (t, s₁) ∧ PInv s₁ ∧ progressed s s₁ ∧
      1 ≤ s₁.current := by
  obtain ⟨t, hpk⟩ := peek_eq_some h
  by_cases he : t.token_type = TokenType.Eof
  · -- at end: cursor unchanged; advOK forces 1 ≤ current
    have h1 : 1 ≤ s.current := by
      rcases ha with h1 | h2
      · exact h1
      · exact absurd he (h2 t hpk)
    obtain ⟨p, hprev⟩ := previous_eq_some h h1
    refine ⟨p, s, ?_, h, progressed_refl s, h1⟩
    simp [ParserState.advance, ParserState.is_at_end, hpk, he, hprev]
  · -- not at end: cursor advances and stays in bounds
    have hlt := eof_succ_lt h.1 hpk he
    have hinv₁ : PInv ⟨s.tokens, s.current + 1⟩ := ⟨h.1, hlt⟩
    obtain ⟨p, hprev⟩ := previous_eq_some hinv₁ (Nat.succ_le_succ (Nat.zero_le _))
    refine ⟨p, ⟨s.tokens, s.current + 1⟩, ?_, hinv₁, ⟨rfl, Nat.le_succ _⟩,
      Nat.succ_le_succ (Nat.zero_le _)⟩
    simp only [ParserState.advance, ParserState.is_at_end, hpk,
      Option.map_some', he, decide_False, if_false]
    simpa [ParserState.previous] using hprev

/-- Under the invariant, `check` answers, and a positive answer means the
cursor sits on a token of the requested (non-end-marker) type. -/
theorem check_safe {s : ParserState} (h : PInv s) (tt : TokenType) :
    ∃ b, s.check tt = some b ∧
      (b = true → ∃ t, s.peek = some t ∧ t.token_type = tt ∧
        t.token_type ≠ TokenType.Eof) := by
  obtain ⟨t, hpk⟩ := peek_eq_some h
  by_cases he : t.token_type = TokenType.Eof
  · exact ⟨false, by simp [ParserState.check, ParserState.is_at_end, hpk, he],
      by simp⟩
  · by_cases hq : t.token_type = tt
    · have he' : ¬ tt = TokenType.Eof := by
        rw [← hq]
        exact he
      exact ⟨true,
        by simp [ParserState.check, ParserState.is_at_end, hpk, he, hq, he'],
        fun _ => ⟨t, hpk, hq, he⟩⟩
    · exact ⟨false,
        by simp [ParserState.check, ParserState.is_at_end, hpk, he, hq],
        by simp⟩

/-- Under the invariant, `match_tokens` answers, preserves the invariant,
moves forward, keeps the state on a negative answer, and has consumed a
token on a positive one. -/
theorem match_tokens_safe {s : ParserState} (h : PInv s) :
    ∀ tts : List TokenType, ∃ b s₁,
      match_tokens s tts = some (b, s₁) ∧ PInv s₁ ∧ progressed s s₁ ∧
        (b = false → s₁ = s) ∧ (b = true → 1 ≤ s₁.current) := by
  intro tts
  induction tts with
  | nil =>
    exact ⟨false, s, rfl, h, progressed_refl s, fun _ => rfl, by simp⟩
  | cons tt rest ih =>
    obtain ⟨b, hck, hpos⟩ := check_safe h tt
    cases b with
    | true =>
      obtain ⟨t, hpk, hq, he⟩ := hpos rfl
      have ha : advOK s := Or.inr (fun u hu => by
        rw [hpk] at hu
        cases hu
        exact he)
      obtain ⟨p, s₁, hadv, hinv₁, hprog, hone⟩ := advance_safe h ha
      exact ⟨true, s₁, by simp [match_tokens, hck, hadv], hinv₁, hprog,
        by simp, fun _ => hone⟩
    | false =>
      obtain ⟨b', s₁, hmt, hinv₁, hprog, hfalse, htrue⟩ := ih
      exact ⟨b', s₁, by simp [match_tokens, hck, hmt], hinv₁, hprog,
        hfalse, htrue⟩

/-- Under the invariant, `consume` never crashes and respects the safety
contract. -/
theorem consume_safe {s : ParserState} (h : PInv s) (tt : TokenType) :
    StOK s (consume s tt) := by
  obtain ⟨b, hck, hpos⟩ := check_safe h tt
  cases b with
  | true =>
    obtain ⟨t, hpk, hq, he⟩ := hpos rfl
    have ha : advOK s := Or.inr (fun u hu => by
      rw [hpk] at hu
      cases hu
      exact he)
    obtain ⟨p, s₁, hadv, hinv₁, hprog, _⟩ := advance_safe h ha
    simp only [consume, hck, hadv]
    exact ⟨hinv₁, hprog⟩
  | false =>
    obtain ⟨t, hpk⟩ := peek_eq_some h
    simp only [consume, hck, hpk]
    exact ⟨h, progressed_refl s⟩

/-- Sequencing preserves safety: if the first step is safe and every
successful continuation is safe from the intermediate state, the whole
`bind` is safe. -/
theorem StOK_bind {α β : Type} {s : ParserState} {r : PRes α}
    {f : α → ParserState → PRes β} (h : StOK s r)
    (hf : ∀ a s₁, r = .ok a s₁ → PInv s₁ → progressed s s₁ →
      StOK s₁ (f a s₁)) :
    StOK s (r.bind f) := by
  cases r with
  | ok a s₁ => exact StOK_mono h.2 (hf a s₁ rfl h.1 h.2)
  | err m s₁ => exact h
  | crash => exact h
  | out => trivial

/-- The loop of `synchronize` is safe whenever at least one token has been
consumed (so that its `previous()` access is in bounds). -/
theorem syncLoop_safe :
    ∀ (fuel : Nat) (s : ParserState), PInv s → 1 ≤ s.current →
      StOK s (syncLoop fuel s) := by
  intro fuel
  induction fuel with
  | zero =>
    intro s _ _
    trivial
  | succ f ih =>
    intro s h h1
    obtain ⟨t, hpk⟩ := peek_eq_some h
    by_cases he : t.token_type = TokenType.Eof
    · simp only [syncLoop, ParserState.is_at_end, hpk, Option.map_some', he,
        decide_True]
      exact ⟨h, progressed_refl s⟩
    · obtain ⟨p, hprev⟩ := previous_eq_some h h1
      have ha : advOK s := Or.inr (fun u hu => by
        rw [hpk] at hu
        cases hu
        exact he)
      obtain ⟨q, s₁, hadv, hinv₁, hprog, hone⟩ := advance_safe h ha
      by_cases hsemi : p.token_type = TokenType.Semicolon
      · simp only [syncLoop, ParserState.is_at_end, hpk, Option.map_some', he,
          decide_False, hprev, hsemi, if_true]
        exact ⟨h, progressed_refl s⟩
      · simp only [syncLoop, ParserState.is_at_end, hpk, Option.map_some', he,
          decide_False, hprev, hsemi, if_false]
        cases htt : t.token_type <;>
          first
          | exact ⟨h, progressed_refl s⟩
          | (rw [hadv]
             exact StOK_mono hprog (ih s₁ hinv₁ hone))

/-- `synchronize` is safe under the invariant and the `advance`
precondition. -/
theorem synchronize_safe :
    ∀ (fuel : Nat) (s : ParserState), PInv s → advOK s →
      StOK s (synchronize fuel s) := by
  intro fuel s h ha
  cases fuel with
  | zero => trivial
  | succ f =>
    obtain ⟨q, s₁, hadv, hinv₁, hprog, hone⟩ := advance_safe h ha
    simp only [synchronize, hadv]
    exact StOK_mono hprog (syncLoop_safe f s₁ hinv₁ hone)

/-- The error handler of `Parser::declaration` is safe: a successful parse
passes through, a parse error triggers a safe `synchronize` before the
error is returned. -/
theorem declHandler_safe {f : Nat} {s₁ : ParserState} {r : PRes Stmt}
    (ha : advOK s₁) (hr : StOK s₁ r) :
    StOK s₁ (match r with
      | PRes.ok v s₂ => PRes.ok v s₂
      | PRes.err m s₂ => (synchronize f s₂).bind fun _ s₃ => PRes.err m s₃
      | PRes.crash => PRes.crash
      | PRes.out => PRes.out) := by
  cases r with
  | ok v s₂ => exact hr
  | err m s₂ =>
    have ha₂ : advOK s₂ := advOK_mono ha hr.2
    refine StOK_mono hr.2 (StOK_bind (synchronize_safe f s₂ hr.1 ha₂) ?_)
    intro u s₃ _ hinv₃ _
    exact ⟨hinv₃, progressed_refl s₃⟩
  | crash => exact hr
  | out => trivial

/-- Every recursive-descent rule of the parser is safe at every fuel: no
rule ever crashes (reads out of bounds), and every outcome keeps the cursor
in bounds, moving monotonically over unchanged tokens. -/
theorem parser_rules_safe : ∀ fuel, RulesSafe fuel := by
  intro fuel
  induction fuel with
  | zero =>
    constructor <;> intros <;> trivial
  | succ f ih =>
    obtain ⟨ihExpr, ihAssign, ihEq, ihEqL, ihCmp, ihCmpL, ihTrm, ihTrmL,
      ihFac, ihFacL, ihUna, ihPrim, ihDecl, ihStmt, ihVar, ihPrint,
      ihExprStmt, ihBlk, ihBlkL⟩ := ih
    have hExpr : ∀ s, PInv s → StOK s (expression (f + 1) s) := by
      intro s h
      simp only [expression]
      exact ihAssign s h
    have hAssign : ∀ s, PInv s → StOK s (assignment (f + 1) s) := by
      intro s h
      simp only [assignment]
      refine StOK_bind (ihEq s h) ?_
      intro expr s₁ _ hinv₁ _
      obtain ⟨b, s₂, hmt, hinv₂, hprog₂, hfalse, htrue⟩ :=
        match_tokens_safe hinv₁ [TokenType.Equal]
      simp only [hmt]
      cases b with
      | true =>
        obtain ⟨equals, hprev⟩ := previous_eq_some hinv₂ (htrue rfl)
        simp only [hprev]
        refine StOK_mono hprog₂ (StOK_bind (ihAssign s₂ hinv₂) ?_)
        intro value s₃ _ hinv₃ _
        cases expr <;> exact ⟨hinv₃, progressed_refl s₃⟩
      | false => exact ⟨hinv₂, hprog₂⟩
    have hEqL : ∀ e s, PInv s → StOK s (equalityLoop (f + 1) e s) := by
      intro e s h
      obtain ⟨b, s₁, hmt, hinv₁, hprog₁, hfalse, htrue⟩ :=
        match_tokens_safe h [TokenType.BangEqual, TokenType.EqualEqual]
      simp only [equalityLoop, hmt]
      cases b with
      | true =>
        obtain ⟨op, hprev⟩ := previous_eq_some hinv₁ (htrue rfl)
        simp only [hprev]
        exact StOK_mono hprog₁ (StOK_bind (ihCmp s₁ hinv₁)
          (fun right s₂ _ hinv₂ _ => ihEqL _ s₂ hinv₂))
      | false => exact ⟨hinv₁, hprog₁⟩
    have hEq : ∀ s, PInv s → StOK s (equality (f + 1) s) := by
      intro s h
      simp only [equality]
      exact StOK_bind (ihCmp s h) (fun e s₁ _ hinv₁ _ => ihEqL e s₁ hinv₁)
    have hCmpL : ∀ e s, PInv s → StOK s (comparisionLoop (f + 1) e s) := by
      intro e s h
      obtain ⟨b, s₁, hmt, hinv₁, hprog₁, hfalse, htrue⟩ :=
        match_tokens_safe h [TokenType.Greater, TokenType.GreaterEqual,
          TokenType.Less, TokenType.LessEqual]
      simp only [comparisionLoop, hmt]
      cases b with
      | true =>
        obtain ⟨op, hprev⟩ := previous_eq_some hinv₁ (htrue rfl)
        simp only [hprev]
        exact StOK_mono hprog₁ (StOK_bind (ihTrm s₁ hinv₁)
          (fun right s₂ _ hinv₂ _ => ihCmpL _ s₂ hinv₂))
      | false => exact ⟨hinv₁, hprog₁⟩
    have hCmp : ∀ s, PInv s → StOK s (comparision (f + 1) s) := by
      intro s h
      simp only [comparision]
      exact StOK_bind (ihTrm s h) (fun e s₁ _ hinv₁ _ => ihCmpL e s₁ hinv₁)
    have hTrmL : ∀ e s, PInv s → StOK s (termLoop (f + 1) e s) := by
      intro e s h
      obtain ⟨b, s₁, hmt, hinv₁, hprog₁, hfalse, htrue⟩ :=
        match_tokens_safe h [TokenType.Minus, TokenType.Plus]
      simp only [termLoop, hmt]
      cases b with
      | true =>
        obtain ⟨op, hprev⟩ := previous_eq_some hinv₁ (htrue rfl)
        simp only [hprev]
        exact StOK_mono hprog₁ (StOK_bind (ihFac s₁ hinv₁)
          (fun right s₂ _ hinv₂ _ => ihTrmL _ s₂ hinv₂))
      | false => exact ⟨hinv₁, hprog₁⟩
    have hTrm : ∀ s, PInv s → StOK s (term (f + 1) s) := by
      intro s h
      simp only [term]
      exact StOK_bind (ihFac s h) (fun e s₁ _ hinv₁ _ => ihTrmL e s₁ hinv₁)
    have hFacL : ∀ e s, PInv s → StOK s (factorLoop (f + 1) e s) := by
      intro e s h
      obtain ⟨b, s₁, hmt, hinv₁, hprog₁, hfalse, htrue⟩ :=
        match_tokens_safe h [TokenType.Slash, TokenType.Star]
      simp only [factorLoop, hmt]
      cases b with
      | true =>
        obtain ⟨op, hprev⟩ := previous_eq_some hinv₁ (htrue rfl)
        simp only [hprev]
        exact StOK_mono hprog₁ (StOK_bind (ihUna s₁ hinv₁)
          (fun right s₂ _ hinv₂ _ => ihFacL _ s₂ hinv₂))
      | false => exact ⟨hinv₁, hprog₁⟩
    have hFac : ∀ s, PInv s → StOK s (factor (f + 1) s) := by
      intro s h
      simp only [factor]
      exact StOK_bind (ihUna s h) (fun e s₁ _ hinv₁ _ => ihFacL e s₁ hinv₁)
    have hUna : ∀ s, PInv s → StOK s (unary (f + 1) s) := by
      intro s h
      obtain ⟨b, s₁, hmt, hinv₁, hprog₁, hfalse, htrue⟩ :=
        match_tokens_safe h [TokenType.Bang, TokenType.Minus]
      simp only [unary, hmt]
      cases b with
      | true =>
        obtain ⟨op, hprev⟩ := previous_eq_some hinv₁ (htrue rfl)
        simp only [hprev]
        exact StOK_mono hprog₁ (StOK_bind (ihUna s₁ hinv₁)
          (fun right s₂ _ hinv₂ _ => ⟨hinv₂, progressed_refl s₂⟩))
      | false => exact ihPrim s h
    have hPrim : ∀ s, PInv s → StOK s (primary (f + 1) s) := by
      intro s h
      obtain ⟨b1, s1, hmt1, hinv1, hprog1, hf1, ht1⟩ :=
        match_tokens_safe h [TokenType.False]
      obtain ⟨b2, s2, hmt2, hinv2, hprog2, hf2, ht2⟩ :=
        match_tokens_safe h [TokenType.True]
      obtain ⟨b3, s3, hmt3, hinv3, hprog3, hf3, ht3⟩ :=
        match_tokens_safe h [TokenType.Nil]
      obtain ⟨b4, s4, hmt4, hinv4, hprog4, hf4, ht4⟩ :=
        match_tokens_safe h [TokenType.String]
      obtain ⟨b5, s5, hmt5, hinv5, hprog5, hf5, ht5⟩ :=
        match_tokens_safe h [TokenType.Number]
      obtain ⟨b6, s6, hmt6, hinv6, hprog6, hf6, ht6⟩ :=
        match_tokens_safe h [TokenType.Identifier]
      obtain ⟨b7, s7, hmt7, hinv7, hprog7, hf7, ht7⟩ :=
        match_tokens_safe h [TokenType.LeftParen]
      obtain ⟨t, hpk⟩ := peek_eq_some h
      simp only [primary, hmt1, hmt2, hmt3, hmt4, hmt5, hmt6, hmt7, hpk]
      cases b1 with
      | true => exact ⟨hinv1, hprog1⟩
      | false =>
      cases b2 with
      | true => exact ⟨hinv2, hprog2⟩
      | false =>
      cases b3 with
      | true => exact ⟨hinv3, hprog3⟩
      | false =>
      cases b4 with
      | true =>
        obtain ⟨prev, hprev⟩ := previous_eq_some hinv4 (ht4 rfl)
        obtain ⟨t4, hpk4⟩ := peek_eq_some hinv4
        simp only [hprev, hpk4]
        rcases prev.literial with _ | (q | q) <;> exact ⟨hinv4, hprog4⟩
      | false =>
      cases b5 with
      | true =>
        obtain ⟨prev, hprev⟩ := previous_eq_some hinv5 (ht5 rfl)
        obtain ⟨t5, hpk5⟩ := peek_eq_some hinv5
        simp only [hprev, hpk5]
        rcases prev.literial with _ | (q | q) <;> exact ⟨hinv5, hprog5⟩
      | false =>
      cases b6 with
      | true =>
        obtain ⟨prev, hprev⟩ := previous_eq_some hinv6 (ht6 rfl)
        simp only [hprev]
        exact ⟨hinv6, hprog6⟩
      | false =>
      cases b7 with
      | true =>
        exact StOK_mono hprog7 (StOK_bind (ihExpr s7 hinv7)
          (fun e s₈ _ hinv₈ _ =>
            StOK_bind (consume_safe hinv₈ TokenType.RightParen)
              (fun u s₉ _ hinv₉ _ => ⟨hinv₉, progressed_refl s₉⟩)))
      | false => exact ⟨h, progressed_refl s⟩
    have hVar : ∀ s, PInv s → StOK s (var_declaration (f + 1) s) := by
      intro s h
      simp only [var_declaration]
      refine StOK_bind (consume_safe h TokenType.Identifier) ?_
      intro name s₁ _ hinv₁ _
      obtain ⟨b, s₂, hmt, hinv₂, hprog₂, hfalse, htrue⟩ :=
        match_tokens_safe hinv₁ [TokenType.Equal]
      simp only [hmt]
      cases b with
      | true =>
        exact StOK_mono hprog₂ (StOK_bind (ihExpr s₂ hinv₂)
          (fun init s₃ _ hinv₃ _ =>
            StOK_bind (consume_safe hinv₃ TokenType.Semicolon)
              (fun u s₄ _ hinv₄ _ => ⟨hinv₄, progressed_refl s₄⟩)))
      | false =>
        exact StOK_mono hprog₂ (StOK_bind (consume_safe hinv₂ TokenType.Semicolon)
          (fun u s₃ _ hinv₃ _ => ⟨hinv₃, progressed_refl s₃⟩))
    have hPrint : ∀ s, PInv s → StOK s (print_statement (f + 1) s) := by
      intro s h
      simp only [print_statement]
      exact StOK_bind (ihExpr s h) (fun e s₁ _ hinv₁ _ =>
        StOK_bind (consume_safe hinv₁ TokenType.Semicolon)
          (fun u s₂ _ hinv₂ _ => ⟨hinv₂, progressed_refl s₂⟩))
    have hExprStmt : ∀ s, PInv s → StOK s (expression_statement (f + 1) s) := by
      intro s h
      simp only [expression_statement]
      exact StOK_bind (ihExpr s h) (fun e s₁ _ hinv₁ _ =>
        StOK_bind (consume_safe hinv₁ TokenType.Semicolon)
          (fun u s₂ _ hinv₂ _ => ⟨hinv₂, progressed_refl s₂⟩))
    have hBlkL : ∀ acc s, PInv s → StOK s (blockLoop (f + 1) acc s) := by
      intro acc s h
      obtain ⟨cb, hck, hpos⟩ := check_safe h TokenType.RightBrace
      obtain ⟨t, hpk⟩ := peek_eq_some h
      by_cases he : t.token_type = TokenType.Eof
      · have hiae : s.is_at_end = some true := by
          simp [ParserState.is_at_end, hpk, he]
        simp only [blockLoop, hck, hiae]
        cases cb with
        | true =>
          exact StOK_bind (consume_safe h TokenType.RightBrace)
            (fun u s₁ _ hinv₁ _ => ⟨hinv₁, progressed_refl s₁⟩)
        | false =>
          exact StOK_bind (consume_safe h TokenType.RightBrace)
            (fun u s₁ _ hinv₁ _ => ⟨hinv₁, progressed_refl s₁⟩)
      · have hiae : s.is_at_end = some false := by
          simp [ParserState.is_at_end, hpk, he]
        simp only [blockLoop, hck, hiae]
        cases cb with
        | true =>
          exact StOK_bind (consume_safe h TokenType.RightBrace)
            (fun u s₁ _ hinv₁ _ => ⟨hinv₁, progressed_refl s₁⟩)
        | false =>
          have ha : advOK s := Or.inr (fun u hu => by
            rw [hpk] at hu
            cases hu
            exact he)
          exact StOK_bind (ihDecl s h ha)
            (fun d s₁ _ hinv₁ _ => ihBlkL (acc ++ [d]) s₁ hinv₁)
    have hBlk : ∀ s, PInv s → StOK s (block (f + 1) s) := by
      intro s h
      simp only [block]
      exact ihBlkL [] s h
    have hStmt : ∀ s, PInv s → StOK s (statement (f + 1) s) := by
      intro s h
      obtain ⟨b1, s1, hmt1, hinv1, hprog1, hf1, ht1⟩ :=
        match_tokens_safe h [TokenType.Print]
      obtain ⟨b2, s2, hmt2, hinv2, hprog2, hf2, ht2⟩ :=
        match_tokens_safe h [TokenType.LeftBrace]
      simp only [statement, hmt1, hmt2]
      cases b1 with
      | true => exact StOK_mono hprog1 (ihPrint s1 hinv1)
      | false =>
        cases b2 with
        | true => exact StOK_mono hprog2 (ihBlk s2 hinv2)
        | false => exact ihExprStmt s h
    have hDecl : ∀ s, PInv s → advOK s → StOK s (declaration (f + 1) s) := by
      intro s h ha
      obtain ⟨b, s₁, hmt, hinv₁, hprog₁, hfalse, htrue⟩ :=
        match_tokens_safe h [TokenType.Var]
      simp only [declaration, hmt]
      cases b with
      | true =>
        have ha₁ : advOK s₁ := advOK_mono ha hprog₁
        exact StOK_mono hprog₁ (declHandler_safe ha₁ (ihVar s₁ hinv₁))
      | false =>
        exact declHandler_safe ha (ihStmt s h)
    exact ⟨hExpr, hAssign, hEq, hEqL, hCmp, hCmpL, hTrm, hTrmL, hFac, hFacL,
      hUna, hPrim, hDecl, hStmt, hVar, hPrint, hExprStmt, hBlk, hBlkL⟩

/-- The loop of `Parser::parse` is safe under the invariant. -/
theorem parseLoop_safe : ∀ (fuel : Nat) (acc : List Stmt) (s : ParserState),
    PInv s → StOK s (parseLoop fuel acc s) := by
  intro fuel
  induction fuel with
  | zero =>
    intro acc s _
    trivial
  | succ f ih =>
    intro acc s h
    obtain ⟨t, hpk⟩ := peek_eq_some h
    by_cases he : t.token_type = TokenType.Eof
    · have hiae : s.is_at_end = some true := by
        simp [ParserState.is_at_end, hpk, he]
      simp only [parseLoop, hiae]
      exact ⟨h, progressed_refl s⟩
    · have hiae : s.is_at_end = some false := by
        simp [ParserState.is_at_end, hpk, he]
      have ha : advOK s := Or.inr (fun u hu => by
        rw [hpk] at hu
        cases hu
        exact he)
      simp only [parseLoop, hiae]
      exact StOK_bind ((parser_rules_safe f).decl s h ha)
        (fun d s₁ _ hinv₁ _ => ih (acc ++ [d]) s₁ hinv₁)

/-- C9: on every non-empty token stream whose last token is the end-of-input
marker, `parse` started at cursor 0 never crashes — no `peek`, `previous`
or `advance` access is out of bounds (a crash outcome would propagate to
the result, and there is none) — and on both regular outcomes the cursor
ends within the stream, i.e. never beyond the end marker's index; this
holds for every fuel. -/
theorem C9_parse_never_reads_past_end (fuel : Nat) (ts : List Token)
    (h : WT ts) : StOK ⟨ts, 0⟩ (parse fuel ⟨ts, 0⟩) := by
  have hlen : 0 < ts.length := List.length_pos.mpr h.1
  exact parseLoop_safe fuel [] ⟨ts, 0⟩ ⟨h, hlen⟩

/-- C9 witness: the safety theorem applied to the concrete well-terminated
stream `num ;` followed by the end marker. -/
theorem C9_witness :
    StOK ⟨[tokNum 1, tokSemi, tokEof], 0⟩
      (parse 30 ⟨[tokNum 1, tokSemi, tokEof], 0⟩) :=
  C9_parse_never_reads_past_end 30 [tokNum 1, tokSemi, tokEof] ⟨by simp, rfl⟩
